import Mathlib

/-!
Shallow embedding of the compound-interest projection engine of
`src/main.financio.py` (function `calculate_compound_interest`, lines 6-66,
and the scenario collection/ranking in `main`, lines 92-155).

Numeric values (principal, rate, payment, balances) are embedded as `ℚ`;
`years` and `compounds_per_year` are Python ints, embedded as `ℤ`.
The fallible function returns `Option` (`None, None` in Python becomes `none`).
-/

namespace Financio

/-- One compounding-and-contribution step (lines 44-49 of the source):
interest is computed on the balance before the contribution, then the
monthly payment is added once per period. -/
def compoundStep (rate_per_period monthly_payment : ℚ) (balance : ℚ) : ℚ :=
  let interest := balance * rate_per_period
  let balance := balance + interest
  balance + monthly_payment

/-- Per-period rate conversion (lines 32-35): `0` when the annual rate is `0`,
otherwise `(annual_rate_percent / 100) / compounds_per_year`. -/
def ratePerPeriod (annual_rate_percent : ℚ) (compounds_per_year : ℤ) : ℚ :=
  if annual_rate_percent = 0 then 0
  else (annual_rate_percent / 100) / (compounds_per_year : ℚ)

/-- The inner loop `for _ in range(compounds_per_year)` (lines 43-53): runs the
periods of one year on state (balance, periods_calculated), breaking as soon
as `periods_calculated >= total_periods`. Returns the final state. -/
def innerLoop (r m : ℚ) (total_periods : ℤ) : ℕ → ℚ → ℤ → ℚ × ℤ
  | 0, bal, pc => (bal, pc)
  | n + 1, bal, pc =>
    let pc' := pc + 1
    let bal' := compoundStep r m bal
    if pc' ≥ total_periods then (bal', pc')
    else innerLoop r m total_periods n bal' pc'

/-- The outer loop `for year in range(1, years + 1)` (lines 42-58): each year
runs the inner loop, appends the balance to the accumulator, and breaks if
the period limit has been reached. Returns the balances list and the final
`periods_calculated` counter. -/
def outerLoop (r m : ℚ) (total_periods : ℤ) (cpy : ℕ) :
    ℕ → ℚ → ℤ → List ℚ → List ℚ × ℤ
  | 0, _, pc, acc => (acc, pc)
  | y + 1, bal, pc, acc =>
    let p := innerLoop r m total_periods cpy bal pc
    let acc' := acc ++ [p.1]
    if p.2 ≥ total_periods then (acc', p.2)
    else outerLoop r m total_periods cpy y p.1 p.2 acc'

/-- The function `calculate_compound_interest` (lines 6-66 of `src/main.financio.py`):
validation returning `none` on negative inputs or non-positive compounding
frequency, then the year-by-year simulation, then the year list built from
`range(years + 1)` and trimmed to the balance count if shorter. -/
def calculate_compound_interest (principal annual_rate_percent : ℚ) (years : ℤ)
    (monthly_payment : ℚ) (compounds_per_year : ℤ) : Option (List ℤ × List ℚ) :=
  if annual_rate_percent < 0 ∨ principal < 0 ∨ years < 0 ∨ monthly_payment < 0 then
    none
  else if compounds_per_year ≤ 0 then
    none
  else
    let rate_per_period := ratePerPeriod annual_rate_percent compounds_per_year
    let total_periods := years * compounds_per_year
    let run := outerLoop rate_per_period monthly_payment total_periods
      compounds_per_year.toNat years.toNat principal 0 [principal]
    let yearly_balances := run.1
    let year_list := List.map (fun i : ℕ => (i : ℤ)) (List.range (years.toNat + 1))
    let year_list :=
      if yearly_balances.length < year_list.length then
        year_list.take yearly_balances.length
      else year_list
    some (year_list, yearly_balances)

/-- A collected scenario (lines 126-131 of the source): the projection result
plus a display label and the final balance stored for sorting. -/
structure Scenario where
  years : List ℤ
  balances : List ℚ
  label : String
  final_balance : ℚ
deriving DecidableEq

/-- Insertion of a scenario into an already-sorted (descending by
`final_balance`) list, placing it before the first element whose key is not
strictly greater; this realizes the stable descending sort performed by
`scenarios.sort(key=lambda x: x['final_balance'], reverse=True)` at line 155
(Python `list.sort` is stable, and `reverse=True` keeps ties in original
order). -/
def sortInsert (s : Scenario) : List Scenario → List Scenario
  | [] => [s]
  | t :: ts =>
    if t.final_balance > s.final_balance then t :: sortInsert s ts
    else s :: t :: ts

/-- The stable descending sort of the scenario list by `final_balance`
(line 155 of the source). -/
def sortScenarios : List Scenario → List Scenario
  | [] => []
  | s :: rest => sortInsert s (sortScenarios rest)

/-- If at least `n` periods remain before the `total_periods` limit, the inner
loop runs all `n` of its iterations (the break can fire only on the last one,
where it does not change the result) and applies `compoundStep` `n` times. -/
theorem innerLoop_run (r m : ℚ) (T : ℤ) :
    ∀ (n : ℕ) (bal : ℚ) (pc : ℤ), pc + n ≤ T →
      innerLoop r m T n bal pc = ((compoundStep r m)^[n] bal, pc + n)
  | 0, bal, pc, _ => by simp [innerLoop]
  | n + 1, bal, pc, h => by
    rw [innerLoop]
    by_cases hb : pc + 1 ≥ T
    · have hn : n = 0 := by omega
      subst hn
      simp [hb]
    · rw [if_neg hb,
        innerLoop_run r m T n (compoundStep r m bal) (pc + 1) (by push_cast at h ⊢; omega)]
      rw [Function.iterate_succ_apply]
      congr 1
      push_cast
      ring

/-- Prepending the one-year balance to the shifted tail of per-year balances
gives the per-year balances over one more year. -/
theorem iterate_shift_list (f : ℚ → ℚ) (c : ℕ) (bal : ℚ) (y : ℕ) :
    f^[c] bal :: (List.range y).map (fun i => f^[(i + 1) * c] (f^[c] bal)) =
      (List.range (y + 1)).map (fun i => f^[(i + 1) * c] bal) := by
  rw [List.range_succ_eq_map, List.map_cons, List.map_map]
  congr 1
  · norm_num
  · refine List.map_congr_left fun i _ => ?_
    simp only [Function.comp_apply]
    rw [← Function.iterate_add_apply]
    congr 1
    simp only [Nat.succ_eq_add_one]
    ring

/-- If at least `y * c` periods remain before the limit, the outer loop runs
all `y` of its years, appending after year `i` the balance obtained by
`(i + 1) * c` compounding steps from the starting balance. -/
theorem outerLoop_run (r m : ℚ) (T : ℤ) (c : ℕ) (hc : 1 ≤ c) :
    ∀ (y : ℕ) (bal : ℚ) (pc : ℤ) (acc : List ℚ), pc + ((y * c : ℕ) : ℤ) ≤ T →
      outerLoop r m T c y bal pc acc =
        (acc ++ (List.range y).map (fun i => (compoundStep r m)^[(i + 1) * c] bal),
          pc + ((y * c : ℕ) : ℤ))
  | 0, bal, pc, acc, _ => by simp [outerLoop]
  | y + 1, bal, pc, acc, h => by
    have hkey : (y + 1) * c = y * c + c := by ring
    rw [hkey, Nat.cast_add] at h
    have h1 : pc + (c : ℤ) ≤ T := by omega
    rw [outerLoop, innerLoop_run r m T c bal pc h1]
    by_cases hb : pc + (c : ℤ) ≥ T
    · have hy : y = 0 := by
        rcases Nat.eq_zero_or_pos y with hy | hy
        · exact hy
        · exfalso
          have hcy : ((c : ℕ) : ℤ) ≤ ((y * c : ℕ) : ℤ) := by
            exact_mod_cast Nat.le_mul_of_pos_left c hy
          omega
      subst hy
      simp [hb, List.range_succ]
    · rw [if_neg (by simpa using hb)]
      rw [outerLoop_run r m T c hc y ((compoundStep r m)^[c] bal) (pc + c)
        (acc ++ [(compoundStep r m)^[c] bal]) (by omega)]
      rw [List.append_assoc, List.singleton_append, iterate_shift_list]
      rw [Prod.mk.injEq]
      refine ⟨rfl, ?_⟩
      rw [hkey, Nat.cast_add]
      ring

/-- Prepending the principal to the per-year balances matches indexing the
iterated step count by whole years. -/
theorem iterate_cons_list (f : ℚ → ℚ) (c : ℕ) (P : ℚ) (y : ℕ) :
    P :: (List.range y).map (fun i => f^[(i + 1) * c] P) =
      (List.range (y + 1)).map (fun i => f^[i * c] P) := by
  rw [List.range_succ_eq_map, List.map_cons, List.map_map, List.cons_eq_cons]
  refine ⟨by simp, ?_⟩
  refine List.map_congr_left fun i _ => ?_
  simp [Function.comp_apply, Nat.succ_eq_add_one]

/-- Characterization of `calculate_compound_interest` on valid inputs: the
call succeeds, the year list is `[0, 1, ..., years]`, the balance list has one
entry per year boundary, and entry `i` is exactly `i * compounds_per_year`
compounding steps applied to the principal (no truncation occurs). -/
theorem cci_valid_eq (P r m : ℚ) (Y C : ℤ)
    (hP : 0 ≤ P) (hr : 0 ≤ r) (hY : 0 ≤ Y) (hm : 0 ≤ m) (hC : 1 ≤ C) :
    calculate_compound_interest P r Y m C =
      some (List.map (fun i : ℕ => (i : ℤ)) (List.range (Y.toNat + 1)),
        (List.range (Y.toNat + 1)).map
          (fun i => (compoundStep (ratePerPeriod r C) m)^[i * C.toNat] P)) := by
  have hno : ¬(r < 0 ∨ P < 0 ∨ Y < 0 ∨ m < 0) := by push_neg; exact ⟨hr, hP, hY, hm⟩
  have hC0 : ¬(C ≤ 0) := by omega
  have hc1 : 1 ≤ C.toNat := by omega
  have hcast : ((Y.toNat * C.toNat : ℕ) : ℤ) = Y * C := by
    push_cast
    rw [Int.toNat_of_nonneg hY, Int.toNat_of_nonneg (by omega : (0 : ℤ) ≤ C)]
  have hT : (0 : ℤ) + ((Y.toNat * C.toNat : ℕ) : ℤ) ≤ Y * C := by omega
  simp only [calculate_compound_interest, if_neg hno, if_neg hC0]
  rw [outerLoop_run (ratePerPeriod r C) m (Y * C) C.toNat hc1 Y.toNat P 0 [P] hT]
  simp only [List.singleton_append, List.length_cons, List.length_map, List.length_range,
    lt_self_iff_false, if_false]
  rw [iterate_cons_list]

/-- With a non-negative per-period rate and payment, one compounding step
does not decrease a non-negative balance. -/
theorem compoundStep_le (rp m b : ℚ) (hrp : 0 ≤ rp) (hm : 0 ≤ m) (hb : 0 ≤ b) :
    b ≤ compoundStep rp m b := by
  simp only [compoundStep]
  nlinarith

/-- With a non-negative per-period rate and payment, one compounding step
preserves non-negativity of the balance. -/
theorem compoundStep_nonneg (rp m b : ℚ) (hrp : 0 ≤ rp) (hm : 0 ≤ m) (hb : 0 ≤ b) :
    0 ≤ compoundStep rp m b :=
  le_trans hb (compoundStep_le rp m b hrp hm hb)

/-- Iterated compounding steps keep the balance non-negative. -/
theorem iterate_compoundStep_nonneg (rp m b : ℚ) (hrp : 0 ≤ rp) (hm : 0 ≤ m)
    (hb : 0 ≤ b) : ∀ n : ℕ, 0 ≤ (compoundStep rp m)^[n] b
  | 0 => hb
  | n + 1 => by
    rw [Function.iterate_succ_apply']
    exact compoundStep_nonneg rp m _ hrp hm (iterate_compoundStep_nonneg rp m b hrp hm hb n)

/-- Iterated compounding is monotone in the number of steps. -/
theorem iterate_compoundStep_mono (rp m b : ℚ) (hrp : 0 ≤ rp) (hm : 0 ≤ m)
    (hb : 0 ≤ b) {i j : ℕ} (hij : i ≤ j) :
    (compoundStep rp m)^[i] b ≤ (compoundStep rp m)^[j] b := by
  induction j, hij using Nat.le_induction with
  | base => exact le_refl _
  | succ n hn ih =>
    refine le_trans ih ?_
    rw [Function.iterate_succ_apply']
    exact compoundStep_le rp m _ hrp hm (iterate_compoundStep_nonneg rp m b hrp hm hb n)

/-- The per-period rate is non-negative for valid inputs. -/
theorem ratePerPeriod_nonneg (r : ℚ) (C : ℤ) (hr : 0 ≤ r) (hC : 1 ≤ C) :
    0 ≤ ratePerPeriod r C := by
  rw [ratePerPeriod]
  split_ifs with h
  · exact le_refl 0
  · have hCq : (0 : ℚ) ≤ (C : ℚ) := by exact_mod_cast (by omega : (0 : ℤ) ≤ C)
    exact div_nonneg (div_nonneg hr (by norm_num)) hCq

/-- Inserting a scenario yields a permutation of consing it. -/
theorem sortInsert_perm (s : Scenario) (l : List Scenario) :
    List.Perm (sortInsert s l) (s :: l) := by
  induction l with
  | nil => exact List.Perm.refl _
  | cons t ts ih =>
    rw [sortInsert]
    split_ifs with h
    · exact (ih.cons t).trans (List.Perm.swap s t ts)
    · exact List.Perm.refl _

/-- The stable sort of the scenario list is a permutation of the input. -/
theorem sortScenarios_perm (l : List Scenario) : List.Perm (sortScenarios l) l := by
  induction l with
  | nil => exact List.Perm.refl _
  | cons s rest ih =>
    exact (sortInsert_perm s (sortScenarios rest)).trans (ih.cons s)

/-- Insertion preserves descending sortedness by `final_balance`. -/
theorem sortInsert_sorted (s : Scenario) (l : List Scenario)
    (hl : l.Sorted (fun a b => b.final_balance ≤ a.final_balance)) :
    (sortInsert s l).Sorted (fun a b => b.final_balance ≤ a.final_balance) := by
  induction l with
  | nil => simp [sortInsert]
  | cons t ts ih =>
    rw [List.sorted_cons] at hl
    obtain ⟨ht, hts⟩ := hl
    rw [sortInsert]
    split_ifs with hgt
    · rw [List.sorted_cons]
      refine ⟨fun b hb => ?_, ih hts⟩
      rcases List.mem_cons.mp ((sortInsert_perm s ts).mem_iff.mp hb) with hb2 | hb2
      · rw [hb2]; exact le_of_lt hgt
      · exact ht b hb2
    · rw [List.sorted_cons]
      refine ⟨fun b hb => ?_, List.sorted_cons.mpr ⟨ht, hts⟩⟩
      rcases List.mem_cons.mp hb with hb | hb
      · rw [hb]; exact not_lt.mp hgt
      · exact le_trans (ht b hb) (not_lt.mp hgt)

/-- The sorted scenario list is sorted descending by `final_balance`. -/
theorem sortScenarios_sorted (l : List Scenario) :
    (sortScenarios l).Sorted (fun a b => b.final_balance ≤ a.final_balance) := by
  induction l with
  | nil => simp [sortScenarios]
  | cons s rest ih => exact sortInsert_sorted s (sortScenarios rest) ih

/-- Insertion is stable: it never reorders the elements holding any fixed
`final_balance` value, because an element is only moved past elements with
strictly greater key. -/
theorem sortInsert_filter (s : Scenario) (l : List Scenario) (k : ℚ) :
    (sortInsert s l).filter (fun x => decide (x.final_balance = k)) =
      (s :: l).filter (fun x => decide (x.final_balance = k)) := by
  induction l with
  | nil => rfl
  | cons t ts ih =>
    rw [sortInsert]
    split_ifs with h
    · by_cases hs : s.final_balance = k
      · have htk : ¬ t.final_balance = k := fun htk => absurd h (by rw [htk, hs]; exact lt_irrefl k)
        simp [List.filter_cons, hs, htk, ih]
      · by_cases htk : t.final_balance = k
        · simp [List.filter_cons, hs, htk, ih]
        · simp [List.filter_cons, hs, htk, ih]
    · rfl

/-- Stability of the whole sort: for every key value, the subsequence of
scenarios carrying that `final_balance` is unchanged (ties keep their original
input order). -/
theorem sortScenarios_filter (l : List Scenario) (k : ℚ) :
    (sortScenarios l).filter (fun x => decide (x.final_balance = k)) =
      l.filter (fun x => decide (x.final_balance = k)) := by
  induction l with
  | nil => rfl
  | cons s rest ih =>
    rw [sortScenarios, sortInsert_filter, List.filter_cons, List.filter_cons, ih]

/-- Concrete run: zero rate, no contribution, three years. -/
theorem cci_eval_flat :
    calculate_compound_interest 1000 0 3 0 12 =
      some ([0, 1, 2, 3], [1000, 1000, 1000, 1000]) := by
  norm_num [calculate_compound_interest, outerLoop, innerLoop, compoundStep,
    ratePerPeriod, List.range_succ]
  decide

/-- Concrete run: zero principal and rate, contribution 100 once per period,
one period per year, two years. -/
theorem cci_eval_contrib :
    calculate_compound_interest 0 0 2 100 1 = some ([0, 1, 2], [0, 100, 200]) := by
  norm_num [calculate_compound_interest, outerLoop, innerLoop, compoundStep,
    ratePerPeriod, List.range_succ]
  decide

/-- Concrete run: zero-year horizon. -/
theorem cci_eval_years0 :
    calculate_compound_interest 7 5 0 3 12 = some ([0], [7]) := by
  norm_num [calculate_compound_interest, outerLoop, innerLoop, compoundStep,
    ratePerPeriod, List.range_succ]

/-- Claim C2: `calculate_compound_interest` fails (returns the error value and no
result) if and only if `principal < 0`, `annual_rate_percent < 0`,
`years < 0`, `monthly_payment < 0`, or `compounds_per_year ≤ 0`; on every
other input it returns a projection result. -/
theorem cci_error_iff (P r m : ℚ) (Y C : ℤ) :
    (calculate_compound_interest P r Y m C = none ↔
      P < 0 ∨ r < 0 ∨ Y < 0 ∨ m < 0 ∨ C ≤ 0) ∧
    (¬(P < 0 ∨ r < 0 ∨ Y < 0 ∨ m < 0 ∨ C ≤ 0) →
      ∃ yl bl, calculate_compound_interest P r Y m C = some (yl, bl)) := by
  rw [calculate_compound_interest]
  constructor
  · split_ifs with h1 h2
    · simp only [true_iff]
      tauto
    · simp only [true_iff]
      tauto
    · push_neg at h1 h2
      obtain ⟨hr, hP, hY, hm⟩ := h1
      constructor
      · intro h
        exact h.elim
      · intro h
        rcases h with h | h | h | h | h
        · exact absurd h (not_lt.mpr hP)
        · exact absurd h (not_lt.mpr hr)
        · exact absurd h (not_lt.mpr hY)
        · exact absurd h (not_lt.mpr hm)
        · exact absurd h (not_le.mpr h2)
  · intro h
    rw [if_neg (by tauto), if_neg (by tauto)]
    exact ⟨_, _, rfl⟩

/-- Witness for C2: a negative principal is rejected, and a fully
non-negative input produces a result. -/
theorem cci_error_iff_witness :
    calculate_compound_interest (-1) 5 10 0 12 = none ∧
      ∃ yl bl, calculate_compound_interest 1000 5 10 0 12 = some (yl, bl) :=
  ⟨(cci_error_iff (-1) 5 0 10 12).1.mpr (by norm_num),
    (cci_error_iff 1000 5 0 10 12).2 (by norm_num)⟩

/-- Claim C6: with zero principal, zero rate, two years and one compounding period
per year, the constant contribution of 100 accumulates once per period, giving
balances `[0, 100, 200]` exactly. -/
theorem cci_contribution_example :
    calculate_compound_interest 0 0 2 100 1 = some ([0, 1, 2], [0, 100, 200]) :=
  cci_eval_contrib

/-- Claim C8: the projection is deterministic — two calls on identical inputs
return identical (year list, balance list) results. Purity is inherent to the
embedding: the function reads no state besides its arguments. -/
theorem cci_deterministic (P₁ r₁ m₁ : ℚ) (Y₁ C₁ : ℤ) (P₂ r₂ m₂ : ℚ) (Y₂ C₂ : ℤ)
    (hP : P₁ = P₂) (hr : r₁ = r₂) (hY : Y₁ = Y₂) (hm : m₁ = m₂) (hC : C₁ = C₂) :
    calculate_compound_interest P₁ r₁ Y₁ m₁ C₁ =
      calculate_compound_interest P₂ r₂ Y₂ m₂ C₂ := by
  rw [hP, hr, hY, hm, hC]

/-- Witness for C8 at a concrete input. -/
theorem cci_deterministic_witness :
    calculate_compound_interest 1000 5 10 100 12 =
      calculate_compound_interest 1000 5 10 100 12 :=
  cci_deterministic 1000 5 100 10 12 1000 5 100 10 12 rfl rfl rfl rfl rfl

/-- Claim C9: the simulation terminates after at most `years * compounds_per_year`
compounding steps: the `periods_calculated` counter (second component of the
loop state, incremented exactly once per executed step) ends at most at
`years * compounds_per_year`. -/
theorem cci_periods_bounded (P r m : ℚ) (Y C : ℤ) (hY : 0 ≤ Y) (hC : 1 ≤ C) :
    (outerLoop (ratePerPeriod r C) m (Y * C) C.toNat Y.toNat P 0 [P]).2 ≤ Y * C := by
  have hc1 : 1 ≤ C.toNat := by omega
  have hcast : ((Y.toNat * C.toNat : ℕ) : ℤ) = Y * C := by
    push_cast
    rw [Int.toNat_of_nonneg hY, Int.toNat_of_nonneg (by omega : (0 : ℤ) ≤ C)]
  have hT : (0 : ℤ) + ((Y.toNat * C.toNat : ℕ) : ℤ) ≤ Y * C := by omega
  rw [outerLoop_run (ratePerPeriod r C) m (Y * C) C.toNat hc1 Y.toNat P 0 [P] hT]
  omega

/-- Witness for C9 at a concrete input. -/
theorem cci_periods_bounded_witness :
    (outerLoop (ratePerPeriod 5 12) 100 (10 * 12) (12 : ℤ).toNat (10 : ℤ).toNat
      1000 0 [1000]).2 ≤ 10 * 12 :=
  cci_periods_bounded 1000 5 100 10 12 (by norm_num) (by norm_num)

/-- Claim C1: for every valid input, consecutive balances of the result are related
by exactly `compounds_per_year` compounding steps, each of which maps the
balance `b` to `b + b * ratePerPeriod + monthly_payment` with
`ratePerPeriod = 0` when the annual rate is `0` and
`(annual_rate_percent / 100) / compounds_per_year` otherwise. -/
theorem cci_step_relation (P r m : ℚ) (Y C : ℤ) (yl : List ℤ) (bl : List ℚ)
    (hP : 0 ≤ P) (hr : 0 ≤ r) (hY : 0 ≤ Y) (hm : 0 ≤ m) (hC : 1 ≤ C)
    (heq : calculate_compound_interest P r Y m C = some (yl, bl))
    (i : ℕ) (hi : i + 1 < bl.length) :
    bl[i + 1]? = (bl[i]?).map
      ((fun b => b + b * (if r = 0 then 0 else r / 100 / (C : ℚ)) + m)^[C.toNat]) := by
  rw [cci_valid_eq P r m Y C hP hr hY hm hC] at heq
  simp only [Option.some.injEq, Prod.mk.injEq] at heq
  obtain ⟨hyl, hbl⟩ := heq
  subst hbl
  rw [List.length_map, List.length_range] at hi
  rw [List.getElem?_map, List.getElem?_map,
    List.getElem?_range (by omega : i + 1 < Y.toNat + 1),
    List.getElem?_range (by omega : i < Y.toNat + 1)]
  simp only [Option.map_some']
  have hfun : (fun b => b + b * (if r = 0 then 0 else r / 100 / (C : ℚ)) + m) =
      compoundStep (ratePerPeriod r C) m := rfl
  rw [hfun, ← Function.iterate_add_apply]
  congr 1
  ring_nf

/-- Witness for C1: with zero rate and contribution 100, the second balance is
one year of steps applied to the first. -/
theorem cci_step_relation_witness :
    ([0, 100, 200] : List ℚ)[0 + 1]? = (([0, 100, 200] : List ℚ)[0]?).map
      ((fun b => b + b * (if (0 : ℚ) = 0 then 0 else 0 / 100 / ((1 : ℤ) : ℚ)) + 100)^[(1 : ℤ).toNat]) :=
  cci_step_relation 0 0 100 2 1 [0, 1, 2] [0, 100, 200] (le_refl 0) (le_refl 0)
    (by norm_num) (by norm_num) (by norm_num) cci_eval_contrib 0 (by norm_num)

/-- Claim C3: the truncation guard never fires on valid integer inputs: the balance
list has `years + 1` entries, the year list is `[0, 1, ..., years]`, and the
two lists have equal length. -/
theorem cci_result_lengths (P r m : ℚ) (Y C : ℤ) (yl : List ℤ) (bl : List ℚ)
    (hP : 0 ≤ P) (hr : 0 ≤ r) (hY : 0 ≤ Y) (hm : 0 ≤ m) (hC : 1 ≤ C)
    (heq : calculate_compound_interest P r Y m C = some (yl, bl)) :
    (bl.length : ℤ) = Y + 1 ∧
      yl = List.map (fun i : ℕ => (i : ℤ)) (List.range (Y.toNat + 1)) ∧
      bl.length = yl.length := by
  rw [cci_valid_eq P r m Y C hP hr hY hm hC] at heq
  simp only [Option.some.injEq, Prod.mk.injEq] at heq
  obtain ⟨hyl, hbl⟩ := heq
  subst hyl hbl
  refine ⟨?_, rfl, by simp only [List.length_map]⟩
  simp only [List.length_map, List.length_range]
  push_cast
  rw [Int.toNat_of_nonneg hY]

/-- Witness for C3 at a concrete input. -/
theorem cci_result_lengths_witness :
    (([1000, 1000, 1000, 1000] : List ℚ).length : ℤ) = 3 + 1 ∧
      ([0, 1, 2, 3] : List ℤ) = List.map (fun i : ℕ => (i : ℤ)) (List.range ((3 : ℤ).toNat + 1)) ∧
      ([1000, 1000, 1000, 1000] : List ℚ).length = ([0, 1, 2, 3] : List ℤ).length :=
  cci_result_lengths 1000 0 0 3 12 [0, 1, 2, 3] [1000, 1000, 1000, 1000]
    (by norm_num) (le_refl 0) (by norm_num) (le_refl 0) (by norm_num) cci_eval_flat

/-- Claim C4: for valid inputs the balances are non-decreasing (in particular when
the rate or the contribution is positive), they are all equal to the principal
when both the rate and the contribution are zero, and the concrete run
`(1000, 0, 3, 0, 12)` yields balances `[1000, 1000, 1000, 1000]`. -/
theorem cci_monotone (P r m : ℚ) (Y C : ℤ) (yl : List ℤ) (bl : List ℚ)
    (hP : 0 ≤ P) (hr : 0 ≤ r) (hY : 0 ≤ Y) (hm : 0 ≤ m) (hC : 1 ≤ C)
    (heq : calculate_compound_interest P r Y m C = some (yl, bl)) :
    ((0 < r ∨ 0 < m) → bl.Sorted (· ≤ ·)) ∧
      (r = 0 ∧ m = 0 → ∀ b ∈ bl, b = P) ∧
      (∃ yl0, calculate_compound_interest 1000 0 3 0 12 =
        some (yl0, [1000, 1000, 1000, 1000])) := by
  rw [cci_valid_eq P r m Y C hP hr hY hm hC] at heq
  simp only [Option.some.injEq, Prod.mk.injEq] at heq
  obtain ⟨hyl, hbl⟩ := heq
  subst hbl
  refine ⟨?_, ?_, ⟨[0, 1, 2, 3], cci_eval_flat⟩⟩
  · intro _
    have hrp := ratePerPeriod_nonneg r C hr hC
    exact (List.pairwise_lt_range (Y.toNat + 1)).map _
      (fun a b hab => iterate_compoundStep_mono (ratePerPeriod r C) m P hrp hm hP
        (Nat.mul_le_mul_right C.toNat (le_of_lt hab)))
  · rintro ⟨hr0, hm0⟩ b hb
    subst hr0 hm0
    rw [List.mem_map] at hb
    obtain ⟨i, _, hbi⟩ := hb
    rw [← hbi]
    exact Function.iterate_fixed (by simp [compoundStep, ratePerPeriod]) (i * C.toNat)

/-- Witness for C4: with a positive contribution the concrete balances are
non-decreasing, and the concrete zero-rate run is constant. -/
theorem cci_monotone_witness :
    List.Sorted (· ≤ ·) ([0, 100, 200] : List ℚ) ∧
      (∃ yl0, calculate_compound_interest 1000 0 3 0 12 =
        some (yl0, [1000, 1000, 1000, 1000])) := by
  have h := cci_monotone 0 0 100 2 1 [0, 1, 2] [0, 100, 200] (le_refl 0) (le_refl 0)
    (by norm_num) (by norm_num) (by norm_num) cci_eval_contrib
  exact ⟨h.1 (Or.inr (by norm_num)), h.2.2⟩

/-- Claim C5: for every valid input the first balance is exactly the principal, and
a zero-year horizon returns year list `[0]` and balance list `[principal]`. -/
theorem cci_first_balance (P r m : ℚ) (Y C : ℤ) (yl : List ℤ) (bl : List ℚ)
    (hP : 0 ≤ P) (hr : 0 ≤ r) (hY : 0 ≤ Y) (hm : 0 ≤ m) (hC : 1 ≤ C)
    (heq : calculate_compound_interest P r Y m C = some (yl, bl)) :
    bl[0]? = some P ∧ (Y = 0 → yl = [0] ∧ bl = [P]) := by
  rw [cci_valid_eq P r m Y C hP hr hY hm hC] at heq
  simp only [Option.some.injEq, Prod.mk.injEq] at heq
  obtain ⟨hyl, hbl⟩ := heq
  subst hyl hbl
  constructor
  · rw [List.getElem?_map, List.getElem?_range (Nat.succ_pos Y.toNat)]
    simp
  · intro hY0
    subst hY0
    norm_num [List.range_succ]

/-- Witness for C5 at the concrete zero-year input. -/
theorem cci_first_balance_witness :
    ([7] : List ℚ)[0]? = some 7 ∧
      ((0 : ℤ) = 0 → ([0] : List ℤ) = [0] ∧ ([7] : List ℚ) = [7]) :=
  cci_first_balance 7 5 3 0 12 [0] [7] (by norm_num) (by norm_num) (le_refl 0)
    (by norm_num) (by norm_num) cci_eval_years0

/-- Claim C10: for every valid input every returned balance is non-negative, and in
fact at least the principal. -/
theorem cci_balances_nonneg (P r m : ℚ) (Y C : ℤ) (yl : List ℤ) (bl : List ℚ)
    (hP : 0 ≤ P) (hr : 0 ≤ r) (hY : 0 ≤ Y) (hm : 0 ≤ m) (hC : 1 ≤ C)
    (heq : calculate_compound_interest P r Y m C = some (yl, bl)) :
    ∀ b ∈ bl, 0 ≤ b ∧ P ≤ b := by
  rw [cci_valid_eq P r m Y C hP hr hY hm hC] at heq
  simp only [Option.some.injEq, Prod.mk.injEq] at heq
  obtain ⟨hyl, hbl⟩ := heq
  subst hbl
  intro b hb
  rw [List.mem_map] at hb
  obtain ⟨i, _, hbi⟩ := hb
  rw [← hbi]
  have hrp := ratePerPeriod_nonneg r C hr hC
  refine ⟨iterate_compoundStep_nonneg (ratePerPeriod r C) m P hrp hm hP (i * C.toNat), ?_⟩
  have h0 := iterate_compoundStep_mono (ratePerPeriod r C) m P hrp hm hP
    (Nat.zero_le (i * C.toNat))
  simpa using h0

/-- Witness for C10: the middle balance of the contribution run is
non-negative and at least the (zero) principal. -/
theorem cci_balances_nonneg_witness : (0 : ℚ) ≤ 100 ∧ (0 : ℚ) ≤ 100 :=
  cci_balances_nonneg 0 0 100 2 1 [0, 1, 2] [0, 100, 200] (le_refl 0) (le_refl 0)
    (by norm_num) (by norm_num) (by norm_num) cci_eval_contrib 100 (by norm_num)

/-- Claim C7: the scenario collector presents scenarios sorted by `final_balance`
descending; the sort is a stable permutation (for every key value the
subsequence of scenarios carrying it keeps its original order); and on three
scenarios with final balances 500, 1500, 1000 the presented order is
[1500, 1000, 500]. -/
theorem sortScenarios_ranking :
    (∀ l : List Scenario,
        (sortScenarios l).Sorted (fun a b => b.final_balance ≤ a.final_balance) ∧
        List.Perm (sortScenarios l) l ∧
        ∀ k : ℚ, (sortScenarios l).filter (fun x => decide (x.final_balance = k)) =
          l.filter (fun x => decide (x.final_balance = k))) ∧
      sortScenarios
          [⟨[0], [500], "A", 500⟩, ⟨[0], [1500], "B", 1500⟩, ⟨[0], [1000], "C", 1000⟩] =
        [⟨[0], [1500], "B", 1500⟩, ⟨[0], [1000], "C", 1000⟩, ⟨[0], [500], "A", 500⟩] := by
  refine ⟨fun l => ⟨sortScenarios_sorted l, sortScenarios_perm l,
    fun k => sortScenarios_filter l k⟩, ?_⟩
  norm_num [sortScenarios, sortInsert]

end Financio
